import Mathlib

/-!
Verification of the direct-inference manager of the scl-machine repository
(`src/scl/cxx/inferenceModule/manager/DirectInferenceManager.cpp`).

The development shallowly embeds the manager's functions:

* a small model of the sc-memory knowledge base (typed elements and arcs,
  cascading `EraseElement`) sufficient for the satisfiability bookkeeping
  (`clearSatisfiabilityInformation` / `addSatisfiabilityInformation`);
* pure models of `generateStatement`, `isTargetAchieved` and `useRule`,
  with the external collaborators (template searcher, template manager,
  logic-expression evaluator) passed in as function parameters, following
  the interface contracts of the design document;
* a fuel-indexed model of `createRulesQueuesListByPriority`, with the
  external iterator utilities (`getAnyByOutRelation`, `getNextFromSet`)
  passed in as parameters;
* a small-step state machine for the main loop of `applyInference`
  together with an event trace, mirroring the C++ control flow
  (the `for` loop over `rulesQueuesByPriority`, the inner `while` over
  `uncheckedRules`, the `checkedRuleList` bookkeeping and the
  `ruleQueueIndex = 0` reset) statement by statement.
-/

namespace Inference

/-! ## Knowledge-base model (sc-memory fragment) -/

/-- The sc-element types used by the satisfiability bookkeeping, plus the
positive permanent access arcs used for structure membership. -/
inductive ScType where
  | node
  | edgeAccessConstPosPerm
  | edgeAccessConstPosTemp
  | edgeAccessConstNegTemp
  | edgeDCommonConst
deriving DecidableEq, Repr

/-- Mask check mirroring `ScType::EdgeDCommon` matching in `Iterator5`:
the untyped common-edge mask matches the constant common edge. -/
def ScType.isEdgeDCommon : ScType → Bool
  | .edgeDCommonConst => true
  | _ => false

/-- Mask check mirroring `ScType::EdgeAccess` matching in `Iterator5`:
the untyped access mask matches every constant access arc. -/
def ScType.isEdgeAccess : ScType → Bool
  | .edgeAccessConstPosPerm => true
  | .edgeAccessConstPosTemp => true
  | .edgeAccessConstNegTemp => true
  | _ => false

/-- One sc-element: its type and, for arcs, source and target handles. -/
structure ScElem where
  ty : ScType
  src : Option Nat
  trg : Option Nat
deriving DecidableEq, Repr

/-- The knowledge base: an association list of element handles to elements,
together with the next fresh handle. -/
structure KB where
  elems : List (Nat × ScElem)
  nextId : Nat
deriving DecidableEq, Repr

/-- An arc is incident to the removed set when its source or target was
removed. -/
def incidentTo (removed : List Nat) (e : ScElem) : Bool :=
  (match e.src with | some s => removed.contains s | none => false) ||
  (match e.trg with | some t => removed.contains t | none => false)

/-- One round of the cascade of `EraseElement`: arcs incident to an erased
element are erased as well. -/
def eraseClosureStep (elems : List (Nat × ScElem)) (removed : List Nat) : List Nat :=
  removed ++
    (elems.filter (fun p => !removed.contains p.1 && incidentTo removed p.2)).map Prod.fst

/-- Fuel-bounded fixpoint of the cascade; `elems.length` rounds suffice. -/
def eraseClosure (elems : List (Nat × ScElem)) : Nat → List Nat → List Nat
  | 0, removed => removed
  | n + 1, removed => eraseClosure elems n (eraseClosureStep elems removed)

/-- `EraseElement` on a set of handles: remove them and, transitively, every
arc incident to a removed element. -/
def eraseElements (kb : KB) (ids : List Nat) : KB :=
  let closure := eraseClosure kb.elems kb.elems.length ids
  { elems := kb.elems.filter (fun p => !decide (p.1 ∈ closure)), nextId := kb.nextId }

/-- The middle edge of a satisfiability quintuple: a common edge (matching
the `ScType::EdgeDCommon` mask) from the rule to the model. -/
def isSatMiddle (rule model : Nat) (p : Nat × ScElem) : Bool :=
  p.2.ty.isEdgeDCommon && p.2.src == some rule && p.2.trg == some model

/-- The attribute arc of a satisfiability quintuple: an access arc (matching
the `ScType::EdgeAccess` mask) from `nrel_satisfiable_formula` to the middle
edge `mid`. -/
def isSatAttr (nrelSat mid : Nat) (q : Nat × ScElem) : Bool :=
  q.2.ty.isEdgeAccess && q.2.src == some nrelSat && q.2.trg == some mid

/-- All satisfiability records for a (rule, model) pair: pairs of the common
edge handle and the attribute arc handle, exactly the quintuples the C++
`Iterator5(rule, EdgeDCommon, model, EdgeAccess, nrel_satisfiable_formula)`
enumerates. -/
def satRecordArcs (kb : KB) (nrelSat rule model : Nat) : List (Nat × Nat) :=
  (kb.elems.filter (isSatMiddle rule model)).flatMap (fun p =>
    (kb.elems.filter (isSatAttr nrelSat p.1)).map (fun q => (p.1, q.1)))

/-- The middle-edge handles of every satisfiability quintuple the C++
iterator enumerates for the pair: the edges `Get(1)` erased by
`clearSatisfiabilityInformation`. -/
def clearMids (kb : KB) (nrelSat rule model : Nat) : List Nat :=
  (kb.elems.filter (fun p =>
    isSatMiddle rule model p && kb.elems.any (isSatAttr nrelSat p.1))).map Prod.fst

/-- `DirectInferenceManager::clearSatisfiabilityInformation`: erase the
middle edge (`Get(1)`) of every satisfiability quintuple of the pair. -/
def clearSatisfiabilityInformation (kb : KB) (nrelSat rule model : Nat) : KB :=
  eraseElements kb (clearMids kb nrelSat rule model)

/-- The common edge rule → model created by `CreateEdge(EdgeDCommonConst, rule, model)`. -/
def commonArc (rule model : Nat) : ScElem :=
  ⟨.edgeDCommonConst, some rule, some model⟩

/-- The verdict arc from `nrel_satisfiable_formula` to the common edge `mid`. -/
def verdictArc (ty : ScType) (nrelSat mid : Nat) : ScElem :=
  ⟨ty, some nrelSat, some mid⟩

/-- `DirectInferenceManager::addSatisfiabilityInformation`: clear first, then
create the common edge rule → model and the typed access arc (positive
temporary for a satisfiable verdict, negative temporary otherwise) from
`nrel_satisfiable_formula` to it. -/
def addSatisfiabilityInformation (kb : KB) (nrelSat rule model : Nat)
    (isSatisfiable : Bool) : KB :=
  let kb1 := clearSatisfiabilityInformation kb nrelSat rule model
  let arc1 : Nat := kb1.nextId
  let kb2 : KB := ⟨kb1.elems ++ [(arc1, commonArc rule model)], arc1 + 1⟩
  let arcTy : ScType :=
    if isSatisfiable then .edgeAccessConstPosTemp else .edgeAccessConstNegTemp
  ⟨kb2.elems ++ [(kb2.nextId, verdictArc arcTy nrelSat arc1)], kb2.nextId + 1⟩

/-- A possibly absent handle is below the bound. -/
def idBound (bound : Nat) : Option Nat → Bool
  | none => true
  | some k => decide (k < bound)

/-- Well-formedness of the knowledge base: every stored handle, and every
handle an arc refers to, is below the fresh-handle counter. -/
def KB.wf (kb : KB) : Bool :=
  kb.elems.all fun p =>
    decide (p.1 < kb.nextId) && idBound kb.nextId p.2.src && idBound kb.nextId p.2.trg

/-! ## Statement generation, target check, rule application -/

/-- `DirectInferenceManager::generateStatement`: search first with the given
parameters; only when the search finds nothing, build the statement template
and generate it. The external helpers `HelperSearchTemplate` (did the search
find a match) and `HelperGenTemplate` (generation success plus the updated
base) are parameters. The result starts as `false` and is set only by the
generation branch. -/
def generateStatement {B : Type} (search : B → Bool) (gen : B → Bool × B)
    (kb : B) : Bool × B :=
  if search kb then (false, kb) else gen kb

/-- `DirectInferenceManager::isTargetAchieved`: walk the binding sets the
template manager enumerated; return `true` on the first one whose search
result is non-empty, `false` when the list is exhausted. `search` is the
external `TemplateSearcher::searchTemplate` for the fixed target statement. -/
def isTargetAchieved {P Res : Type} (search : P → List Res) : List P → Bool
  | [] => false
  | p :: rest => if (search p).isEmpty then isTargetAchieved search rest else true

/-- Number of searches `isTargetAchieved` performs on the given binding-set
list (instrumentation for the short-circuit property). -/
def searchCallCount {P Res : Type} (search : P → List Res) : List P → Nat
  | [] => 0
  | p :: rest => if (search p).isEmpty then searchCallCount search rest + 1 else 1

/-- `DirectInferenceManager::useRule`: look up the rule's key element (the
result of the external `getAnyByOutRelation(rule, rrel_main_key_sc_element)`
is the parameter `keyElement`); if absent return `false` without building or
computing a logical expression; otherwise build and compute the expression
(the external evaluator is the parameter `computeFormula`). -/
def useRule {K W : Type} (keyElement : Option K)
    (computeFormula : K → W → Bool × W) (w : W) : Bool × W :=
  match keyElement with
  | none => (false, w)
  | some key => computeFormula key w

/-! ## Rule queue construction by priority -/

/-- `DirectInferenceManager::createRulesQueuesListByPriority`: starting from
the set reached through `rrel_1` (the `cur` argument of the first call),
push the queue of every priority set and move on through the external
`getNextFromSet` until the handle is invalid (`none`). The C++ loop has no
bound; the embedding spends one unit of fuel per iteration and returns
`none` when the fuel runs out, so a run that returns `none` for every fuel
is a non-terminating run of the source loop. -/
def createRulesQueuesListByPriority {S R : Type} (next : S → Option S)
    (queueOf : S → List R) : Nat → Option S → Option (List (List R))
  | _, none => some []
  | 0, some _ => none
  | fuel + 1, some s =>
    match createRulesQueuesListByPriority next queueOf fuel (next s) with
    | none => none
    | some rest => some (queueOf s :: rest)

/-- The priority chain starting at `cur` reaches its end (an invalid handle)
within the given number of steps. -/
def reachesEnd {S : Type} (next : S → Option S) : Nat → Option S → Bool
  | _, none => true
  | 0, some _ => false
  | fuel + 1, some s => reachesEnd next fuel (next s)

/-! ## The main loop of applyInference as a small-step machine -/

/-- External collaborators of one inference run, specialised to the fixed
target statement and argument list: rule evaluation (which may generate
facts, hence returns an updated world), the target-achieved check, and the
satisfiability bookkeeping writes. -/
structure Oracle (W R : Type) where
  useRule : R → W → Bool × W
  isTargetAchieved : W → Bool
  clearSat : R → W → W
  addSat : R → Bool → W → W

/-- Observable events of one `applyInference` run. -/
inductive Event (R : Type) where
  | checkTarget (result : Bool)
  | constructQueues
  | loadTier (idx : Nat)
  | clearSat (rule : R)
  | useRuleEv (rule : R) (result : Bool)
  | addSat (rule : R) (verdict : Bool)
deriving DecidableEq, Repr

/-- State of the main loop: about to load the tier at `idx` (the `for`
header), scanning a tier with the remaining `uncheckedRules` queue (front
first) and the accumulated `checkedRuleList`, or finished with the final
`targetAchieved` flag. -/
inductive LoopSt (W R : Type) where
  | loadTier (idx : Nat) (checked : List R) (w : W)
  | scan (idx : Nat) (current : List R) (checked : List R) (w : W)
  | done (achieved : Bool) (w : W)
deriving DecidableEq, Repr

/-- One step of the main loop of `applyInference`, with the events it emits.
`loadTier` mirrors the `for` condition and the tier fetch; `scan` mirrors
one iteration of the inner `while`: pop the front rule, clear its
satisfiability record, try it; on success record satisfiability, re-check
the target, and either stop (`break`) or append the checked list to the
current queue, set `ruleQueueIndex` to `0` and clear the checked list; on
failure record unsatisfiability and push the rule onto the checked list.
An empty queue falls through to the `for` increment. -/
def stepEv {W R : Type} (o : Oracle W R) (queues : List (List R)) :
    LoopSt W R → LoopSt W R × List (Event R)
  | .loadTier idx checked w =>
    match queues[idx]? with
    | some tier => (.scan idx tier checked w, [.loadTier idx])
    | none => (.done false w, [])
  | .scan idx current checked w =>
    match current with
    | [] => (.loadTier (idx + 1) checked w, [])
    | r :: rest =>
      let w1 := o.clearSat r w
      let used := o.useRule r w1
      if used.1 then
        let w3 := o.addSat r true used.2
        if o.isTargetAchieved w3 then
          (.done true w3, [.clearSat r, .useRuleEv r true, .addSat r true, .checkTarget true])
        else
          (.scan 0 (rest ++ checked) [] w3,
           [.clearSat r, .useRuleEv r true, .addSat r true, .checkTarget false])
      else
        (.scan idx rest (checked ++ [r]) (o.addSat r false used.2),
         [.clearSat r, .useRuleEv r false, .addSat r false])
  | .done b w => (.done b w, [])

/-- Run the loop for the given number of steps, concatenating events. -/
def runLoopSt {W R : Type} (o : Oracle W R) (queues : List (List R)) :
    Nat → LoopSt W R → LoopSt W R × List (Event R)
  | 0, s => (s, [])
  | n + 1, s =>
    let p := stepEv o queues s
    let r := runLoopSt o queues n p.1
    (r.1, p.2 ++ r.2)

/-- Extract the solution a finished loop returns; `none` when the state is
still running (the source loop has not terminated yet). -/
def finalResult {W R : Type} : LoopSt W R → Option (Bool × W)
  | .done b w => some (b, w)
  | _ => none

/-- Outcome of the guarded call to `createRulesQueuesListByPriority` in
`applyInference`: the construction can loop forever, throw a
`std::runtime_error` (caught by the caller), or return the tier queues. -/
inductive QueuesResult (R : Type) where
  | diverge
  | err
  | ok (queues : List (List R))
deriving DecidableEq, Repr

/-- `DirectInferenceManager::applyInference`, with its event trace. The
result `some (achieved, w)` is the solution record built by
`SolutionTreeGenerator::createSolution(achieved)` together with the final
world; `none` means the run did not terminate within `fuel` loop steps (or
queue construction diverged). Mirrors the source order: the
empty-argument early return for a valid input structure, the initial
target check, the invalid-rule-set and construction-failure and
empty-queue-list returns, then the main loop from tier `0`. -/
def applyInferenceT {W R A : Type} (o : Oracle W R) (inputValid : Bool)
    (inputNodes : List A) (ruleSetValid : Bool) (qr : QueuesResult R)
    (fuel : Nat) (w0 : W) : Option (Bool × W) × List (Event R) :=
  if inputValid && inputNodes.isEmpty then (some (false, w0), [])
  else if o.isTargetAchieved w0 then (some (true, w0), [.checkTarget true])
  else if !ruleSetValid then (some (false, w0), [.checkTarget false])
  else
    match qr with
    | .diverge => (none, [.checkTarget false, .constructQueues])
    | .err => (some (false, w0), [.checkTarget false, .constructQueues])
    | .ok [] => (some (false, w0), [.checkTarget false, .constructQueues])
    | .ok queues =>
      let r := runLoopSt o queues fuel (.loadTier 0 [] w0)
      (finalResult r.1, .checkTarget false :: .constructQueues :: r.2)

/-- First `loadTier` event of a trace. -/
def firstLoadTier {R : Type} : List (Event R) → Option Nat
  | [] => none
  | .loadTier i :: _ => some i
  | _ :: rest => firstLoadTier rest

/-- The tier index loaded next after the first successful rule use whose
target re-check failed (the situation of the regression-scheduling claim). -/
def loadAfterSuccessNotAchieved {R : Type} : List (Event R) → Option Nat
  | .useRuleEv _ true :: .addSat _ true :: .checkTarget false :: rest => firstLoadTier rest
  | _ :: rest => loadAfterSuccessNotAchieved rest
  | [] => none

/-! ## Concrete instances used by witnesses and counterexamples -/

/-- A run in which only rule `0` is applicable and the target is never
achieved; nothing mutates the (trivial) world. -/
def o1 : Oracle Unit Nat :=
  ⟨fun r _ => (decide (r = 0), ()), fun _ => false, fun _ w => w, fun _ _ w => w⟩

/-- A run whose target statement is already achieved at the start. -/
def oT : Oracle Unit Nat :=
  ⟨fun _ _ => (false, ()), fun _ => true, fun _ w => w, fun _ _ w => w⟩

/-- A run in which every rule is always applicable (its precondition keeps
holding, as with a generatively satisfiable formula) while the target is
never achieved. -/
def o6 : Oracle Unit Nat :=
  ⟨fun _ _ => (true, ()), fun _ => false, fun _ w => w, fun _ _ w => w⟩

/-- Two priority tiers, one rule each. -/
def queues6 : List (List Nat) := [[0], [1]]

/-- The loop states the run of `o6` over `queues6` passes through. -/
def states6 : List (LoopSt Unit Nat) :=
  [.loadTier 0 [] (), .scan 0 [0] [] (), .scan 0 [] [] (),
   .loadTier 1 [] (), .scan 1 [1] [] ()]

/-- The run of `o6` over `queues6` never returns a solution: the source
loop does not terminate on this input. -/
def applyInferenceDiverges : Prop :=
  ∀ fuel : Nat,
    (applyInferenceT o6 false ([] : List Nat) true (.ok queues6) fuel ()).1 = none

/-- A cyclic priority chain: every set is its own successor. -/
def selfNext : Nat → Option Nat := fun s => some s

/-- On the cyclic chain, queue construction never returns: the source
`while` loop of `createRulesQueuesListByPriority` does not terminate. -/
def cyclicConstruction : Prop :=
  ∀ fuel : Nat,
    createRulesQueuesListByPriority selfNext (fun _ => ([] : List Nat)) fuel (some 0) = none

/-- A well-founded priority chain with three tiers: 0 → 1 → 2 → end. -/
def chainNext : Nat → Option Nat := fun s => if s < 2 then some (s + 1) else none

/-- A three-node knowledge base (`nrel_satisfiable_formula` at handle 1, a
rule at 2, a model at 3). -/
def kbW : KB :=
  ⟨[(1, ⟨.node, none, none⟩), (2, ⟨.node, none, none⟩), (3, ⟨.node, none, none⟩)], 4⟩

/-- A searcher with a match exactly on binding set `1`. -/
def searchW : Nat → List Nat := fun p => if p = 1 then [0] else []

/-! ## Helper lemmas -/

theorem flatMap_nil_of_forall {α β : Type} {l : List α} {f : α → List β}
    (h : ∀ a ∈ l, f a = []) : l.flatMap f = [] := by
  induction l with
  | nil => rfl
  | cons x xs ih =>
    rw [List.flatMap_cons, h x (List.mem_cons_self x xs),
      ih (fun a ha => h a (List.mem_cons_of_mem x ha))]
    rfl

theorem mem_eraseClosure_self (elems : List (Nat × ScElem)) :
    ∀ (n : Nat) (removed : List Nat) (x : Nat),
      x ∈ removed → x ∈ eraseClosure elems n removed := by
  intro n
  induction n with
  | zero => intro removed x hx; exact hx
  | succ k ih =>
    intro removed x hx
    exact ih (eraseClosureStep elems removed) x (List.mem_append_left _ hx)

theorem mem_clear_elems {kb : KB} {ns rule model : Nat} {p : Nat × ScElem}
    (h : p ∈ (clearSatisfiabilityInformation kb ns rule model).elems) :
    p ∈ kb.elems ∧
      p.1 ∉ eraseClosure kb.elems kb.elems.length (clearMids kb ns rule model) := by
  have h2 := List.mem_filter.mp h
  refine ⟨h2.1, ?_⟩
  simpa using h2.2

theorem clear_no_attr {kb : KB} {ns rule model : Nat} {p q : Nat × ScElem}
    (hp : p ∈ (clearSatisfiabilityInformation kb ns rule model).elems)
    (hmid : isSatMiddle rule model p = true)
    (hq : q ∈ (clearSatisfiabilityInformation kb ns rule model).elems) :
    isSatAttr ns p.1 q = false := by
  cases hA : isSatAttr ns p.1 q with
  | false => rfl
  | true =>
    exfalso
    obtain ⟨hpkb, hpnc⟩ := mem_clear_elems hp
    obtain ⟨hqkb, -⟩ := mem_clear_elems hq
    have hany : kb.elems.any (isSatAttr ns p.1) = true :=
      List.any_eq_true.mpr ⟨q, hqkb, hA⟩
    have hmem : p.1 ∈ clearMids kb ns rule model := by
      refine List.mem_map.mpr ⟨p, List.mem_filter.mpr ⟨hpkb, ?_⟩, rfl⟩
      simp [hmid, hany]
    exact hpnc (mem_eraseClosure_self kb.elems kb.elems.length _ p.1 hmem)

/-- After a clear, no satisfiability record for the pair remains. -/
theorem satRecordArcs_clear (kb : KB) (ns rule model : Nat) :
    satRecordArcs (clearSatisfiabilityInformation kb ns rule model) ns rule model = [] := by
  apply flatMap_nil_of_forall
  intro p hp
  have hp2 := List.mem_filter.mp hp
  have hnil :
      (clearSatisfiabilityInformation kb ns rule model).elems.filter (isSatAttr ns p.1)
        = [] := by
    apply List.filter_eq_nil_iff.mpr
    intro q hq hA
    have := clear_no_attr hp2.1 hp2.2 hq
    simp [hA] at this
  rw [hnil]
  rfl

theorem idBound_some {bound t : Nat} {o : Option Nat}
    (h : idBound bound o = true) (ht : o = some t) : t < bound := by
  subst ht
  simpa [idBound] using h

theorem idBound_mono {b b' : Nat} (h : b ≤ b') {o : Option Nat}
    (ho : idBound b o = true) : idBound b' o = true := by
  cases o with
  | none => rfl
  | some k =>
    simp only [idBound, decide_eq_true_eq] at ho ⊢
    omega

theorem wf_clear (kb : KB) (ns rule model : Nat) (hwf : kb.wf = true) :
    (clearSatisfiabilityInformation kb ns rule model).wf = true := by
  apply List.all_eq_true.mpr
  intro p hp
  exact List.all_eq_true.mp hwf p (mem_clear_elems hp).1

theorem satRecordArcs_extend (E : List (Nat × ScElem)) (ns rule model n : Nat) (ty : ScType)
    (hty1 : ty.isEdgeDCommon = false) (hty2 : ty.isEdgeAccess = true)
    (hid : ∀ p ∈ E, p.1 < n)
    (htrg : ∀ q ∈ E, ∀ t, q.2.trg = some t → t < n)
    (hnoattr : ∀ p ∈ E, isSatMiddle rule model p = true →
      ∀ q ∈ E, isSatAttr ns p.1 q = false) :
    satRecordArcs
      ⟨(E ++ [(n, commonArc rule model)]) ++ [(n + 1, verdictArc ty ns n)], n + 2⟩
      ns rule model
      = [(n, n + 1)] := by
  rw [satRecordArcs]
  have hM :
      ((E ++ [(n, commonArc rule model)]) ++ [(n + 1, verdictArc ty ns n)]).filter
        (isSatMiddle rule model)
        = E.filter (isSatMiddle rule model) ++ [(n, commonArc rule model)] := by
    rw [List.filter_append, List.filter_append]
    have h1 : [((n, commonArc rule model) : Nat × ScElem)].filter (isSatMiddle rule model)
        = [(n, commonArc rule model)] := by
      simp [isSatMiddle, commonArc, ScType.isEdgeDCommon]
    have h2 : [((n + 1, verdictArc ty ns n) : Nat × ScElem)].filter
        (isSatMiddle rule model) = [] := by
      simp [isSatMiddle, verdictArc, hty1]
    rw [h1, h2, List.append_nil]
  rw [hM, List.flatMap_append]
  have hEnil :
      (E.filter (isSatMiddle rule model)).flatMap (fun p =>
        (((E ++ [(n, commonArc rule model)]) ++ [(n + 1, verdictArc ty ns n)]).filter
          (isSatAttr ns p.1)).map (fun q => (p.1, q.1))) = [] := by
    apply flatMap_nil_of_forall
    intro p hp
    have hp2 := List.mem_filter.mp hp
    have hfil :
        ((E ++ [(n, commonArc rule model)]) ++ [(n + 1, verdictArc ty ns n)]).filter
          (isSatAttr ns p.1) = [] := by
      rw [List.filter_append, List.filter_append]
      have hE0 : E.filter (isSatAttr ns p.1) = [] := by
        apply List.filter_eq_nil_iff.mpr
        intro q hq hA
        have := hnoattr p hp2.1 hp2.2 q hq
        simp [hA] at this
      have hc0 : [((n, commonArc rule model) : Nat × ScElem)].filter
          (isSatAttr ns p.1) = [] := by
        simp [isSatAttr, commonArc, ScType.isEdgeAccess]
      have ha0 : [((n + 1, verdictArc ty ns n) : Nat × ScElem)].filter
          (isSatAttr ns p.1) = [] := by
        have hlt : p.1 < n := hid p hp2.1
        have hne : ¬ (n = p.1) := by omega
        simp [isSatAttr, verdictArc, hne]
      rw [hE0, hc0, ha0]
      rfl
    rw [hfil]
    rfl
  rw [hEnil]
  have hc :
      ([((n, commonArc rule model) : Nat × ScElem)]).flatMap (fun p =>
        (((E ++ [(n, commonArc rule model)]) ++ [(n + 1, verdictArc ty ns n)]).filter
          (isSatAttr ns p.1)).map (fun q => (p.1, q.1))) = [(n, n + 1)] := by
    rw [List.flatMap_cons]
    have hfil :
        ((E ++ [(n, commonArc rule model)]) ++ [(n + 1, verdictArc ty ns n)]).filter
          (isSatAttr ns n) = [(n + 1, verdictArc ty ns n)] := by
      rw [List.filter_append, List.filter_append]
      have hE0 : E.filter (isSatAttr ns n) = [] := by
        apply List.filter_eq_nil_iff.mpr
        intro q hq hA
        cases hq2 : q.2.trg with
        | none => simp [isSatAttr, hq2] at hA
        | some t =>
          have := htrg q hq t hq2
          have hne : ¬ (t = n) := by omega
          simp [isSatAttr, hq2, hne] at hA
      have hc0 : [((n, commonArc rule model) : Nat × ScElem)].filter
          (isSatAttr ns n) = [] := by
        simp [isSatAttr, commonArc, ScType.isEdgeAccess]
      have ha0 : [((n + 1, verdictArc ty ns n) : Nat × ScElem)].filter
          (isSatAttr ns n) = [(n + 1, verdictArc ty ns n)] := by
        simp [isSatAttr, verdictArc, hty2]
      rw [hE0, hc0, ha0]
      rfl
    rw [hfil]
    rfl
  rw [hc]
  rfl

theorem satRecordArcs_add (kb : KB) (ns rule model : Nat) (v : Bool) (hwf : kb.wf = true) :
    satRecordArcs (addSatisfiabilityInformation kb ns rule model v) ns rule model
      = [(kb.nextId, kb.nextId + 1)] := by
  have hty1 :
      (if v then ScType.edgeAccessConstPosTemp else ScType.edgeAccessConstNegTemp).isEdgeDCommon
        = false := by
    cases v <;> rfl
  have hty2 :
      (if v then ScType.edgeAccessConstPosTemp else ScType.edgeAccessConstNegTemp).isEdgeAccess
        = true := by
    cases v <;> rfl
  have hid : ∀ p ∈ (clearSatisfiabilityInformation kb ns rule model).elems,
      p.1 < kb.nextId := by
    intro p hp
    have h := List.all_eq_true.mp hwf p (mem_clear_elems hp).1
    simp only [Bool.and_eq_true, decide_eq_true_eq] at h
    exact h.1.1
  have htrg : ∀ q ∈ (clearSatisfiabilityInformation kb ns rule model).elems,
      ∀ t, q.2.trg = some t → t < kb.nextId := by
    intro q hq t ht
    have h := List.all_eq_true.mp hwf q (mem_clear_elems hq).1
    simp only [Bool.and_eq_true, decide_eq_true_eq] at h
    exact idBound_some h.2 ht
  exact satRecordArcs_extend (clearSatisfiabilityInformation kb ns rule model).elems
    ns rule model kb.nextId
    (if v then ScType.edgeAccessConstPosTemp else ScType.edgeAccessConstNegTemp)
    hty1 hty2 hid htrg (fun p hp hmid q hq => clear_no_attr hp hmid hq)

theorem wf_add (kb : KB) (ns rule model : Nat) (v : Bool) (hwf : kb.wf = true)
    (hns : ns < kb.nextId) (hrule : rule < kb.nextId) (hmodel : model < kb.nextId) :
    (addSatisfiabilityInformation kb ns rule model v).wf = true := by
  apply List.all_eq_true.mpr
  intro p hp
  have hmem : p ∈ ((clearSatisfiabilityInformation kb ns rule model).elems
      ++ [(kb.nextId, commonArc rule model)])
      ++ [(kb.nextId + 1,
            verdictArc (if v then .edgeAccessConstPosTemp else .edgeAccessConstNegTemp)
              ns kb.nextId)] := hp
  show (decide (p.1 < kb.nextId + 2) && idBound (kb.nextId + 2) p.2.src
    && idBound (kb.nextId + 2) p.2.trg) = true
  rcases List.mem_append.mp hmem with h | h
  · rcases List.mem_append.mp h with h | h
    · have h2 := List.all_eq_true.mp hwf p (mem_clear_elems h).1
      simp only [Bool.and_eq_true, decide_eq_true_eq] at h2 ⊢
      exact ⟨⟨by omega, idBound_mono (by omega) h2.1.2⟩, idBound_mono (by omega) h2.2⟩
    · have h2 := List.mem_singleton.mp h
      subst h2
      simp only [commonArc, idBound, Bool.and_eq_true, decide_eq_true_eq]
      omega
  · have h2 := List.mem_singleton.mp h
    subst h2
    simp only [verdictArc, idBound, Bool.and_eq_true, decide_eq_true_eq]
    omega

/-- C3: after `addSatisfiabilityInformation(rule, model, verdict)` exactly one
satisfiability record exists for the pair — the freshly created common edge
together with its one typed verdict arc (positive access arc for a
satisfiable verdict, negative for unsatisfiable); repeating the call leaves
again exactly one record, and `clearSatisfiabilityInformation` leaves zero
records and is idempotent. -/
theorem addSatisfiability_record_invariant (kb : KB) (ns rule model : Nat) (v : Bool)
    (hwf : kb.wf = true) (hns : ns < kb.nextId) (hrule : rule < kb.nextId)
    (hmodel : model < kb.nextId) :
    satRecordArcs (addSatisfiabilityInformation kb ns rule model v) ns rule model
      = [(kb.nextId, kb.nextId + 1)]
    ∧ (kb.nextId + 1,
        verdictArc (if v then .edgeAccessConstPosTemp else .edgeAccessConstNegTemp)
          ns kb.nextId)
        ∈ (addSatisfiabilityInformation kb ns rule model v).elems
    ∧ (satRecordArcs
        (addSatisfiabilityInformation (addSatisfiabilityInformation kb ns rule model v)
          ns rule model v) ns rule model).length = 1
    ∧ satRecordArcs (clearSatisfiabilityInformation kb ns rule model) ns rule model = []
    ∧ satRecordArcs
        (clearSatisfiabilityInformation (clearSatisfiabilityInformation kb ns rule model)
          ns rule model) ns rule model = [] := by
  refine ⟨satRecordArcs_add kb ns rule model v hwf, ?_, ?_,
    satRecordArcs_clear kb ns rule model, satRecordArcs_clear _ ns rule model⟩
  · exact List.mem_append_right _ (List.mem_singleton.mpr rfl)
  · rw [satRecordArcs_add (addSatisfiabilityInformation kb ns rule model v) ns rule model v
      (wf_add kb ns rule model v hwf hns hrule hmodel)]
    rfl

/-- Witness for the satisfiability-record invariant at a concrete base. -/
theorem addSatisfiability_record_invariant_witness :
    satRecordArcs (addSatisfiabilityInformation kbW 1 2 3 true) 1 2 3 = [(4, 5)]
    ∧ satRecordArcs (clearSatisfiabilityInformation kbW 1 2 3) 1 2 3 = [] :=
  ⟨(addSatisfiability_record_invariant kbW 1 2 3 true (by decide) (by decide) (by decide)
      (by decide)).1,
   (addSatisfiability_record_invariant kbW 1 2 3 true (by decide) (by decide) (by decide)
      (by decide)).2.2.2.1⟩

/-- C7 counterexample: when the search already finds a match, the source
`generateStatement` returns `false` (the result variable is initialised to
`false` and only the generation branch assigns it), refuting the claim that
it returns `true` when the pattern was found. -/
theorem generateStatement_found_cex :
    generateStatement (fun _ : Nat => true) (fun kb => (true, kb)) 0 = (false, 0) := rfl

/-- C7 amended: `generateStatement` searches first and generates only when
the search finds no match; when the search finds a match it returns `false`
without generating, and otherwise its result is exactly the generation
outcome. -/
theorem generateStatement_generate_if_absent {B : Type} (search : B → Bool)
    (gen : B → Bool × B) (kb : B) :
    (search kb = true → generateStatement search gen kb = (false, kb))
    ∧ (search kb = false → generateStatement search gen kb = gen kb) := by
  constructor <;> intro h <;> simp [generateStatement, h]

/-- Witness for the amended generate-if-absent behaviour at concrete inputs. -/
theorem generateStatement_generate_if_absent_witness :
    generateStatement (fun k : Nat => decide (k = 0)) (fun k => (true, k + 1)) 0 = (false, 0)
    ∧ generateStatement (fun k : Nat => decide (k = 0)) (fun k => (true, k + 1)) 1 = (true, 2) :=
  ⟨(generateStatement_generate_if_absent (fun k : Nat => decide (k = 0))
      (fun k => (true, k + 1)) 0).1 (by decide),
   (generateStatement_generate_if_absent (fun k : Nat => decide (k = 0))
      (fun k => (true, k + 1)) 1).2 (by decide)⟩

/-- C8: `isTargetAchieved` returns `true` exactly when some enumerated
binding set has a non-empty search result; it short-circuits — a hit on the
first binding set yields `true` with exactly one search performed, whatever
follows — and an empty enumeration yields `false`. (The function only calls
the searcher, modelled as a pure query, so the knowledge base is unchanged.) -/
theorem isTargetAchieved_spec {P Res : Type} (search : P → List Res) (ps : List P) :
    (isTargetAchieved search ps = true ↔ ∃ p, p ∈ ps ∧ (search p).isEmpty = false)
    ∧ (∀ (p : P) (rest : List P), (search p).isEmpty = false →
        isTargetAchieved search (p :: rest) = true
          ∧ searchCallCount search (p :: rest) = 1)
    ∧ isTargetAchieved search ([] : List P) = false := by
  refine ⟨?_, ?_, rfl⟩
  · induction ps with
    | nil => simp [isTargetAchieved]
    | cons p rest ih =>
      cases h : (search p).isEmpty with
      | true =>
        rw [isTargetAchieved, if_pos h, ih]
        constructor
        · rintro ⟨q, hq, hqe⟩
          exact ⟨q, List.mem_cons_of_mem p hq, hqe⟩
        · rintro ⟨q, hq, hqe⟩
          rcases List.mem_cons.mp hq with rfl | hq2
          · rw [h] at hqe
            cases hqe
          · exact ⟨q, hq2, hqe⟩
      | false =>
        have ht : isTargetAchieved search (p :: rest) = true := by
          rw [isTargetAchieved, if_neg (by simp [h])]
        constructor
        · intro _
          exact ⟨p, List.mem_cons_self p rest, h⟩
        · intro _
          exact ht
  · intro p rest hne
    constructor
    · rw [isTargetAchieved, if_neg (by simp [hne])]
    · rw [searchCallCount, if_neg (by simp [hne])]

/-- Witness: with a match on the first binding set, the target check
succeeds after exactly one search. -/
theorem isTargetAchieved_spec_witness :
    isTargetAchieved searchW (1 :: [2]) = true ∧ searchCallCount searchW (1 :: [2]) = 1 :=
  (isTargetAchieved_spec searchW [1, 2]).2.1 1 [2] (by decide)

/-- C9: a rule without a designated key element cannot be used: `useRule`
returns `false` with the world untouched, for every possible
logical-expression evaluator — the expression is never built or computed —
and this is an ordinary return, not an error. -/
theorem useRule_no_key_element {K W : Type} (w : W) :
    ∀ computeFormula : K → W → Bool × W,
      useRule (none : Option K) computeFormula w = (false, w) :=
  fun _ => rfl

/-- C5 counterexample: `createRulesQueuesListByPriority` raises no structural
error on malformed priority chains. With the expected `rrel_1` relation
missing (start handle invalid) it silently returns an empty queue list, and
on a cyclic next-chain it never terminates (for every fuel the loop is still
running) instead of raising. -/
theorem createRulesQueues_malformed_cex :
    createRulesQueuesListByPriority selfNext (fun _ => ([] : List Nat)) 5 none = some []
    ∧ cyclicConstruction := by
  refine ⟨rfl, ?_⟩
  intro fuel
  induction fuel with
  | zero => rfl
  | succ n ih => simp [createRulesQueuesListByPriority, selfNext, ih]

/-- C5 amended: the function itself detects nothing and raises nothing: on a
chain that reaches its end within the fuel it returns the tier queues, and a
missing first tier yields the empty list of queues; the `catch` in the
caller only covers errors thrown by the external utilities, and a cyclic
chain makes the loop run forever (see the counterexample). -/
theorem createRulesQueues_no_error {S R : Type} (next : S → Option S)
    (queueOf : S → List R) (fuel : Nat) (cur : Option S)
    (h : reachesEnd next fuel cur = true) :
    (createRulesQueuesListByPriority next queueOf fuel cur).isSome = true
    ∧ createRulesQueuesListByPriority next queueOf fuel none = some [] := by
  refine ⟨?_, by cases fuel <;> rfl⟩
  induction fuel generalizing cur with
  | zero =>
    cases cur with
    | none => rfl
    | some s => cases h
  | succ n ih =>
    cases cur with
    | none => rfl
    | some s =>
      have h2 := ih (next s) h
      cases hx : createRulesQueuesListByPriority next queueOf n (next s) with
      | none =>
        rw [hx] at h2
        cases h2
      | some rest => simp [createRulesQueuesListByPriority, hx]

/-- Witness: on the well-founded chain 0 → 1 → 2 → end, construction
terminates with a queue list. -/
theorem createRulesQueues_no_error_witness :
    (createRulesQueuesListByPriority chainNext (fun _ => ([] : List Nat)) 5 (some 0)).isSome
      = true :=
  (createRulesQueues_no_error chainNext (fun _ => ([] : List Nat)) 5 (some 0) (by decide)).1

/-- C2 counterexample: with an invalid input structure the argument list is
empty, yet the run does not fail immediately — here the target is already
achieved and the call returns the success solution after performing the
target check, so the early-failure claim fails for the invalid-handle case. -/
theorem applyInference_empty_args_cex :
    (applyInferenceT oT false ([] : List Nat) true (.ok [[0]]) 5 ()).1 = some (true, ())
    ∧ (applyInferenceT oT false ([] : List Nat) true (.ok [[0]]) 5 ()).2
        = [Event.checkTarget true] :=
  ⟨rfl, rfl⟩

/-- C2 amended: only when the input structure is a valid handle whose node
collection is empty does `applyInference` return the failure solution
immediately — with an empty trace: no target check, no queue construction
and no rule evaluation; an invalid input structure proceeds with an
unconstrained (empty) argument list. -/
theorem applyInference_valid_empty_input {W R A : Type} (o : Oracle W R) (rsv : Bool)
    (qr : QueuesResult R) (fuel : Nat) (w0 : W) :
    applyInferenceT o true ([] : List A) rsv qr fuel w0 = (some (false, w0), []) := rfl

/-- C4: when the target statement is already achieved before any rule is
tried (and the valid-but-empty-input early return does not fire),
`applyInference` returns the success solution with the world unchanged and
the trace holding the single target check: the rule set is never consulted,
no queue is constructed, and no rule is used or generates facts. -/
theorem applyInference_target_already_achieved {W R A : Type} (o : Oracle W R)
    (iv : Bool) (nodes : List A) (rsv : Bool) (qr : QueuesResult R) (fuel : Nat) (w0 : W)
    (hargs : (iv && nodes.isEmpty) = false) (hach : o.isTargetAchieved w0 = true) :
    applyInferenceT o iv nodes rsv qr fuel w0
      = (some (true, w0), [Event.checkTarget true]) := by
  simp [applyInferenceT, hargs, hach]

/-- Witness: a run whose initial target check succeeds stops at once with
success. -/
theorem applyInference_target_already_achieved_witness :
    applyInferenceT oT false ([] : List Nat) true (.ok [[0]]) 3 ()
      = (some (true, ()), [Event.checkTarget true]) :=
  applyInference_target_already_achieved oT false [] true (.ok [[0]]) 3 () (by decide) rfl

/-- C6 amended: with the target not achieved, an invalid rule set handle, a
caught construction error, and an empty tier list each make `applyInference`
return the failure solution without loading any tier or using any rule; the
invalid-rule-set path returns before queue construction is even attempted.
The further clause of the claim — that every execution path terminates by
returning a solution — does not hold; see the non-termination
counterexample. -/
theorem applyInference_soft_failure_paths {W R A : Type} (o : Oracle W R) (iv : Bool)
    (nodes : List A) (qr : QueuesResult R) (fuel : Nat) (w0 : W)
    (hargs : (iv && nodes.isEmpty) = false) (hach : o.isTargetAchieved w0 = false) :
    applyInferenceT o iv nodes false qr fuel w0
      = (some (false, w0), [Event.checkTarget false])
    ∧ applyInferenceT o iv nodes true .err fuel w0
        = (some (false, w0), [Event.checkTarget false, Event.constructQueues])
    ∧ applyInferenceT o iv nodes true (.ok []) fuel w0
        = (some (false, w0), [Event.checkTarget false, Event.constructQueues]) := by
  refine ⟨?_, ?_, ?_⟩ <;> simp [applyInferenceT, hargs, hach]

/-- Witness for the soft-failure paths at a concrete run. -/
theorem applyInference_soft_failure_paths_witness :
    applyInferenceT o1 false ([] : List Nat) false (.ok [[0]]) 3 ()
      = (some (false, ()), [Event.checkTarget false]) :=
  (applyInference_soft_failure_paths o1 false [] (.ok [[0]]) 3 () (by decide) rfl).1

theorem states6_closed : ∀ s ∈ states6,
    (stepEv o6 queues6 s).1 ∈ states6
      ∧ finalResult s = (none : Option (Bool × Unit)) := by
  decide

theorem runLoopSt6_none : ∀ (fuel : Nat) (s : LoopSt Unit Nat), s ∈ states6 →
    finalResult (runLoopSt o6 queues6 fuel s).1 = none := by
  intro fuel
  induction fuel with
  | zero =>
    intro s hs
    exact (states6_closed s hs).2
  | succ n ih =>
    intro s hs
    show finalResult (runLoopSt o6 queues6 n (stepEv o6 queues6 s).1).1 = none
    exact ih _ (states6_closed s hs).1

/-- C6 counterexample: not every execution path of `applyInference` returns
a solution record. With two priority tiers whose rules stay applicable while
the target stays unachieved, the loop cycles (rescanning tier 1) forever:
for every amount of fuel the run has not returned. -/
theorem applyInference_nontermination_cex : applyInferenceDiverges := by
  intro fuel
  show finalResult (runLoopSt o6 queues6 fuel (LoopSt.loadTier 0 [] ())).1 = none
  exact runLoopSt6_none fuel _ (by decide)

/-- C1 counterexample: rule `0` in tier 0 is used successfully and the
target re-check fails, yet the next tier loaded afterwards is tier 1 —
exactly tier k+1 for k = 0 — not tier 0: the index reset to 0 is followed by
the for-loop increment once the current queue drains, so the scan never
reloads tier 0. -/
theorem regression_to_top_cex :
    (applyInferenceT o1 false ([] : List Nat) true (.ok [[0], [1]]) 20 ()).2
      = [Event.checkTarget false, Event.constructQueues, Event.loadTier 0,
         Event.clearSat 0, Event.useRuleEv 0 true, Event.addSat 0 true,
         Event.checkTarget false, Event.loadTier 1, Event.clearSat 1,
         Event.useRuleEv 1 false, Event.addSat 1 false]
    ∧ loadAfterSuccessNotAchieved
        (applyInferenceT o1 false ([] : List Nat) true (.ok [[0], [1]]) 20 ()).2
        = some 1 :=
  ⟨rfl, rfl⟩

/-- C1 amended: on a successful rule use with the target still unachieved,
the manager resets the tier index to 0, appends the checked-rule list to the
current tier's queue and clears it, and keeps draining that queue; once the
queue is empty the for-loop increment moves the (reset) index on, so the
next tier loaded is tier index 1 — the scan resumes from tier 1, not from
tier 0. -/
theorem success_reset_behavior {W R : Type} (o : Oracle W R) (queues : List (List R))
    (idx : Nat) (r : R) (rest checked : List R) (w : W)
    (hused : (o.useRule r (o.clearSat r w)).1 = true)
    (hnot : o.isTargetAchieved (o.addSat r true (o.useRule r (o.clearSat r w)).2) = false) :
    stepEv o queues (.scan idx (r :: rest) checked w)
      = (.scan 0 (rest ++ checked) [] (o.addSat r true (o.useRule r (o.clearSat r w)).2),
         [Event.clearSat r, Event.useRuleEv r true, Event.addSat r true,
          Event.checkTarget false])
    ∧ (∀ (j : Nat) (ch : List R) (w2 : W),
        stepEv o queues (.scan j [] ch w2) = (.loadTier (j + 1) ch w2, [])) := by
  constructor
  · simp [stepEv, hused, hnot]
  · intro j ch w2
    rfl

/-- Witness for the reset-and-resume behaviour at a concrete step. -/
theorem success_reset_behavior_witness :
    stepEv o1 [[0], [1]] (.scan 1 (0 :: [5]) [7] ())
      = (.scan 0 ([5] ++ [7]) [] (),
         [Event.clearSat 0, Event.useRuleEv 0 true, Event.addSat 0 true,
          Event.checkTarget false])
    ∧ (∀ (j : Nat) (ch : List Nat) (w2 : Unit),
        stepEv o1 [[0], [1]] (.scan j [] ch w2) = (.loadTier (j + 1) ch w2, [])) :=
  success_reset_behavior o1 [[0], [1]] 1 0 [5] [7] () (by decide) (by decide)

/-- C10: in one loop step, a successful rule use with the target still
unachieved appends every accumulated checked (previously failed) rule onto
the back of the current queue and empties the checked list; a failed rule is
only appended to the checked list — the queue is not extended, so failed
rules are not retried until some later success; and the loop leaves the
current tier (moves to the next `loadTier`) only when the current queue has
been drained, so requeued rules are re-attempted before the tier is left. -/
theorem checked_rules_requeue {W R : Type} (o : Oracle W R) (queues : List (List R))
    (idx : Nat) (r : R) (rest checked : List R) (w : W) :
    ((o.useRule r (o.clearSat r w)).1 = true →
      o.isTargetAchieved (o.addSat r true (o.useRule r (o.clearSat r w)).2) = false →
      (stepEv o queues (.scan idx (r :: rest) checked w)).1
        = .scan 0 (rest ++ checked) [] (o.addSat r true (o.useRule r (o.clearSat r w)).2))
    ∧ ((o.useRule r (o.clearSat r w)).1 = false →
      (stepEv o queues (.scan idx (r :: rest) checked w)).1
        = .scan idx rest (checked ++ [r]) (o.addSat r false (o.useRule r (o.clearSat r w)).2))
    ∧ (∀ (i : Nat) (cur ch : List R) (w1 : W) (j : Nat) (ch2 : List R) (w2 : W)
        (evs : List (Event R)),
        stepEv o queues (.scan i cur ch w1) = (.loadTier j ch2 w2, evs) → cur = []) := by
  refine ⟨?_, ?_, ?_⟩
  · intro hused hnot
    simp [stepEv, hused, hnot]
  · intro hused
    simp [stepEv, hused]
  · intro i cur ch w1 j ch2 w2 evs hstep
    cases cur with
    | nil => rfl
    | cons r2 rest2 =>
      rw [stepEv] at hstep
      by_cases hu : (o.useRule r2 (o.clearSat r2 w1)).1
      · simp only [hu] at hstep
        by_cases ha : o.isTargetAchieved (o.addSat r2 true (o.useRule r2 (o.clearSat r2 w1)).2)
        · simp only [ha] at hstep
          simp at hstep
        · simp only [ha] at hstep
          simp at hstep
      · simp only [Bool.not_eq_true] at hu
        simp only [hu] at hstep
        simp at hstep

/-- Witness for the requeue bookkeeping: rule 0 succeeds and requeues the
checked rule 4; rule 2 fails and is accumulated without a retry. -/
theorem checked_rules_requeue_witness :
    (stepEv o1 [[0], [1]] (.scan 1 (0 :: [3]) [4] ())).1 = .scan 0 ([3] ++ [4]) [] ()
    ∧ (stepEv o1 [[0], [1]] (.scan 1 (2 :: [3]) [4] ())).1 = .scan 1 [3] ([4] ++ [2]) () :=
  ⟨(checked_rules_requeue o1 [[0], [1]] 1 0 [3] [4] ()).1 (by decide) (by decide),
   (checked_rules_requeue o1 [[0], [1]] 1 2 [3] [4] ()).2.1 (by decide)⟩

end Inference
